import Mathlib

/-!
Shallow embedding of the `sync` concurrency primitives of this Go
repository (Mutex, RWMutex, WaitGroup, Once, Pool, Map), together with
theorems checking the specification's claims about them.

Machine integers are modelled as `Nat`/`Int` with explicit bit
operations (`&&&`, `|||`, `<<<`, `>>>`) and explicit `% 2^w` where
overflow matters.  Each operation of the source is translated as a pure
function; the calls into the runtime semaphore (`runtime_Semrelease`,
`runtime_SemacquireMutex`, ...) are modelled as emitted events or
counts, and a `throw`/`panic` in the source becomes an explicit error
constructor, so that the fatal paths are visible in the result type.
-/

/-! ### Mutex (src/unnamed/part_006)

State is a single signed 32-bit word; valid states are nonnegative, so
we carry it as a `Nat` below `2^32`.  Bit 0 is `mutexLocked`, bit 1 is
`mutexWoken`, bit 2 is `mutexStarving`, and the remaining high bits
(from `mutexWaiterShift`) count the waiters. -/

def mutexLocked : Nat := 1

def mutexWoken : Nat := 2

def mutexStarving : Nat := 4

def mutexWaiterShift : Nat := 3

/-- `starvationThresholdNs = 1e6`: a waiter that waits longer than this
many nanoseconds flags the mutex as starving. -/
def starvationThresholdNs : Int := 1000000

/-- The update of `lockSlow`'s local `starving` flag performed after the
waiter is woken from `runtime_SemacquireMutex`:
`starving = starving || runtime_nanotime()-waitStartTime > starvationThresholdNs`. -/
def starvingAfterWake (starving : Bool) (now waitStartTime : Int) : Bool :=
  starving || decide (now - waitStartTime > starvationThresholdNs)

/-- The `new` state computed by one non-spinning iteration of `lockSlow`
from the observed state `old` and the local flags `starving`/`awoke`,
i.e. the value the iteration tries to CAS into `m.state`.  `none`
models the `throw("sync: inconsistent mutex state")` taken when `awoke`
is set but the woken bit is missing; clearing the woken bit
(`new &^= mutexWoken`) is a subtraction since the bit is known set. -/
def lockSlowNewState (old : Nat) (starving awoke : Bool) : Option Nat :=
  let n1 := if old &&& mutexStarving == 0 then old ||| mutexLocked else old
  let n2 := if old &&& (mutexLocked ||| mutexStarving) != 0 then
              n1 + (1 <<< mutexWaiterShift) else n1
  let n3 := if starving && (old &&& mutexLocked != 0) then n2 ||| mutexStarving else n2
  if awoke then
    if n3 &&& mutexWoken == 0 then none else some (n3 - mutexWoken)
  else some n3

/-- Outcome of the code `lockSlow` runs right after waking from the
semaphore, on the state `old` it then observes. -/
inductive WakeStep where
  /-- Starvation handoff: the waiter owns the mutex, loop breaks with
  this new state written by `atomic.AddInt32(&m.state, delta)`. -/
  | acquired (newState : Nat)
  /-- Normal mode: set `awoke`, reset `iter`, and retry the loop. -/
  | retry
  /-- `throw("sync: inconsistent mutex state")`. -/
  | inconsistent
  deriving DecidableEq, Repr

/-- The step `lockSlow` performs after `runtime_SemacquireMutex` returns
and `starving` has been recomputed: in starvation mode the ownership
was handed off, `delta = mutexLocked - 1<<mutexWaiterShift` decrements
the waiter count and sets the locked bit, and `mutexStarving` is also
subtracted exactly when `!starving || old>>mutexWaiterShift == 1`. -/
def lockSlowAfterWake (old : Nat) (starving : Bool) : WakeStep :=
  if old &&& mutexStarving != 0 then
    if old &&& (mutexLocked ||| mutexWoken) != 0 || old >>> mutexWaiterShift == 0 then
      WakeStep.inconsistent
    else
      let exitStarvation := !starving || old >>> mutexWaiterShift == 1
      WakeStep.acquired
        (old + mutexLocked - (1 <<< mutexWaiterShift) -
          (if exitStarvation then mutexStarving else 0))
  else WakeStep.retry

/-- Outcome of `Mutex.Unlock`. -/
inductive UnlockOutcome where
  /-- `throw("sync: unlock of unlocked mutex")`. -/
  | fatal
  /-- Unlock returned; `wake = none` if no semaphore release was
  performed, `some handoff` if `runtime_Semrelease(&m.sema, handoff, 1)`
  ran. -/
  | ok (state : Nat) (wake : Option Bool)
  deriving DecidableEq, Repr

def two32 : Nat := 4294967296

/-- `Mutex.unlockSlow`, entered with `new = state - mutexLocked` when
`new != 0`.  In a sequential execution the CAS loop of the normal mode
runs exactly one iteration with `old = new`. -/
def unlockSlowM (newS : Nat) : UnlockOutcome :=
  if (newS + mutexLocked) &&& mutexLocked == 0 then UnlockOutcome.fatal
  else if newS &&& mutexStarving == 0 then
    if newS >>> mutexWaiterShift == 0 ||
        newS &&& (mutexLocked ||| mutexWoken ||| mutexStarving) != 0 then
      UnlockOutcome.ok newS none
    else
      UnlockOutcome.ok ((newS - (1 <<< mutexWaiterShift)) ||| mutexWoken) (some false)
  else
    UnlockOutcome.ok newS (some true)

/-- `Mutex.Unlock`: atomically subtract `mutexLocked` (int32 arithmetic,
hence the addition of `two32 - mutexLocked` modulo `two32`) and fall
into `unlockSlow` whenever the result is nonzero. -/
def mutexUnlock (state : Nat) : UnlockOutcome :=
  let newS := (state + (two32 - mutexLocked)) % two32
  if newS != 0 then unlockSlowM newS else UnlockOutcome.ok 0 none

/-! ### RWMutex (src/src/sync/rwmutex.go)

`readerCount` and `readerWait` are signed 32-bit counters; well within
int32 range in any reachable state, so they are carried as `Int`.  The
runtime-semaphore calls of `Unlock`/`RUnlock` are modelled as an emitted
event list, in program order. -/

def rwmutexMaxReaders : Int := 1073741824

/-- Events emitted by `RWMutex.Unlock`. -/
inductive RWEv where
  /-- One `runtime_Semrelease(&rw.readerSem, false, 0)` of the unblock loop. -/
  | releaseReaderSem
  /-- The final `rw.w.Unlock()` of the embedded writer mutex. -/
  | unlockWriterMutex
  /-- `throw("sync: Unlock of unlocked RWMutex")`. -/
  | fatalThrow
  deriving DecidableEq, Repr

/-- The loop `for i := 0; i < int(r); i++ { runtime_Semrelease(...) }`,
one event per iteration (a non-positive `r` runs no iteration). -/
def rwReleaseLoop : Nat → List RWEv
  | 0 => []
  | n + 1 => RWEv.releaseReaderSem :: rwReleaseLoop n

/-- `RWMutex.Unlock` on the stored `readerCount`: add `rwmutexMaxReaders`
back, throw if the result shows no writer held the lock, otherwise
release the reader semaphore once per queued reader and only then
unlock the embedded writer mutex.  Returns the new `readerCount`
together with the events in program order. -/
def rwUnlock (readerCount : Int) : Int × List RWEv :=
  let r := readerCount + rwmutexMaxReaders
  if r >= rwmutexMaxReaders then (r, [RWEv.fatalThrow])
  else (r, rwReleaseLoop r.toNat ++ [RWEv.unlockWriterMutex])

/-- Events emitted by `RWMutex.RUnlock`. -/
inductive RUEv where
  /-- `runtime_Semrelease(&rw.writerSem, false, 1)`: the last reader
  unblocks the waiting writer. -/
  | releaseWriterSem
  /-- `throw("sync: RUnlock of unlocked RWMutex")`. -/
  | fatalThrow
  deriving DecidableEq, Repr

/-- `RWMutex.RUnlock` (with its outlined `rUnlockSlow`): decrement
`readerCount`; a negative result means a writer is pending, in which
case an unlocked or writer-locked instance throws, and otherwise
`readerWait` is decremented and the writer semaphore released exactly
when it reaches zero.  Returns the new `readerCount`, the new
`readerWait` and the emitted events. -/
def rUnlock (readerCount readerWait : Int) : Int × Int × List RUEv :=
  let r := readerCount - 1
  if r < 0 then
    if r + 1 = 0 ∨ r + 1 = -rwmutexMaxReaders then (r, readerWait, [RUEv.fatalThrow])
    else
      let w := readerWait - 1
      if w = 0 then (r, w, [RUEv.releaseWriterSem]) else (r, w, [])
  else (r, readerWait, [])

/-! ### WaitGroup (src/src/sync/waitgroup.go)

The packed 64-bit state word: high 32 bits are the signed counter, low
32 bits the waiter count.  `Add` receives a (64-bit) signed `delta`;
`uint64(delta)<<32` truncated to 64 bits adds `(delta mod 2^32) * 2^32`. -/

def two64 : Nat := 18446744073709551616

/-- The signed 32-bit value of an unsigned residue (`int32(x)`). -/
def toInt32 (d : Int) : Int :=
  let m := d % 4294967296
  if m < 2147483648 then m else m - 4294967296

/-- The packed state after `atomic.AddUint64(statep, uint64(delta)<<32)`. -/
def wgNewState (state : Nat) (delta : Int) : Nat :=
  (state + (delta % 4294967296).toNat * 4294967296) % two64

/-- `v := int32(state >> 32)`: the counter after the addition. -/
def wgCounter (st : Nat) : Int :=
  toInt32 (st / 4294967296 % 4294967296)

/-- `w := uint32(state)`: the waiter count after the addition. -/
def wgWaiters (st : Nat) : Nat := st % 4294967296

/-- The loop `for ; w != 0; w-- { runtime_Semrelease(semap, false, 0) }`,
one unit per release. -/
def wgRelLoop : Nat → List Unit
  | 0 => []
  | n + 1 => () :: wgRelLoop n

/-- Outcome of `WaitGroup.Add`. -/
inductive WGAddResult where
  /-- `panic("sync: negative WaitGroup counter")`. -/
  | panicNegative
  /-- `panic("sync: WaitGroup misuse: Add called concurrently with Wait")`. -/
  | panicConcurrent
  /-- `Add` returned, leaving the packed state at `newState` after
  emitting one semaphore release per element of `sem`. -/
  | ok (newState : Nat) (sem : List Unit)
  deriving DecidableEq, Repr

/-- `WaitGroup.Add(delta)` on the packed `state`.  The sanity re-read
`*statep != state` cannot fire in a sequential execution (the state
cannot change between the atomic add and the re-read), so it is not a
separate outcome here. -/
def wgAdd (state : Nat) (delta : Int) : WGAddResult :=
  let st := wgNewState state delta
  let v := wgCounter st
  let w := wgWaiters st
  if v < 0 then WGAddResult.panicNegative
  else if w ≠ 0 ∧ delta > 0 ∧ v = toInt32 delta then WGAddResult.panicConcurrent
  else if v > 0 ∨ w = 0 then WGAddResult.ok st []
  else WGAddResult.ok 0 (wgRelLoop w)

/-! ### Once (src/src/sync/once.go)

The state is the `done` flag (`uint32`, 0 or 1), carried as a `Bool`.
A call to `Do` receives a function modelled by an identifier together
with a flag saying whether the body panics; the events a call emits are
recorded in program order.  In `doSlow`, `defer atomic.StoreUint32(&o.done, 1)`
is registered before `f()` runs, so the store happens after `f`
finishes even when `f` panics. -/

/-- Events of a `Once.Do` call. -/
inductive OnceEv where
  /-- The single invocation of the argument `f` begins. -/
  | invokeStart (id : Nat)
  /-- The invocation of `f` finished, either normally or by panicking. -/
  | invokeEnd (id : Nat) (panicked : Bool)
  /-- The deferred `atomic.StoreUint32(&o.done, 1)` ran. -/
  | storeDone
  deriving DecidableEq, Repr

/-- One call `Once.Do(f)` on the `done` flag; `f = (id, panics)`.
The fast path returns when `done` is set; otherwise `doSlow` locks
`o.m`, re-checks `done` under the lock (unchanged in a sequential
execution), runs `f`, and the deferred store sets `done` afterwards,
also when `f` panicked. -/
def onceDo (done : Bool) (f : Nat × Bool) : Bool × List OnceEv :=
  if done then (done, [])
  else (true, [OnceEv.invokeStart f.1, OnceEv.invokeEnd f.1 f.2, OnceEv.storeDone])

/-- A sequence of `Do` calls on the same `Once` value, from state
`done`, with the concatenated event trace. -/
def onceRunFrom (done : Bool) : List (Nat × Bool) → Bool × List OnceEv
  | [] => (done, [])
  | f :: rest =>
    let s1 := onceDo done f
    let s2 := onceRunFrom s1.1 rest
    (s2.1, s1.2 ++ s2.2)

/-- The number of invocations of a call argument in a trace. -/
def invokeCount (evs : List OnceEv) : Nat :=
  evs.countP fun e =>
    match e with
    | OnceEv.invokeStart _ => true
    | _ => false

/-! ### Map (src/src/sync/runtime2.go)

The concurrent map: an immutable read snapshot (`readm` plus the
`amended` flag), a mutex-protected dirty overlay and a miss counter.
Entries (`*entry`) are shared between the snapshot and the dirty map,
so they live in a small heap keyed by entry id; an entry's pointer slot
is `valid v`, `nilE` (deleted, `p == nil`) or `expunged`.  Go maps
become association lists. -/

/-- The three states of an entry's atomically-swapped pointer slot. -/
inductive EntrySt (V : Type) where
  /-- `p` points to a stored value. -/
  | valid (v : V)
  /-- `p == nil`: deleted. -/
  | nilE
  /-- `p == expunged`: deleted and absent from the dirty map. -/
  | expunged
  deriving DecidableEq, Repr

/-- Association-list lookup (Go map indexing `m[key]`). -/
def lookupA {K A : Type} [DecidableEq K] : List (K × A) → K → Option A
  | [], _ => none
  | p :: t, key => if p.1 = key then some p.2 else lookupA t key

/-- Association-list removal (Go `delete(m, key)`). -/
def eraseA {K A : Type} [DecidableEq K] : List (K × A) → K → List (K × A)
  | [], _ => []
  | p :: t, key => if p.1 = key then eraseA t key else p :: eraseA t key

/-- Association-list update of an existing key. -/
def setA {K A : Type} [DecidableEq K] (l : List (K × A)) (key : K) (a : A) :
    List (K × A) :=
  l.map fun p => if p.1 = key then (key, a) else p

/-- The state of a `Map` value. -/
structure MapSt (K V : Type) where
  /-- The shared entries, keyed by entry id. -/
  heap : List (Nat × EntrySt V)
  /-- `read.m`: the immutable snapshot, mapping keys to entry ids. -/
  readm : List (K × Nat)
  /-- `read.amended`: the dirty map holds keys the snapshot lacks. -/
  amended : Bool
  /-- `dirty`: `none` models a nil dirty map. -/
  dirty : Option (List (K × Nat))
  /-- `misses`: loads since the last promotion that needed the lock. -/
  misses : Nat
  deriving DecidableEq, Repr

/-- The dirty map as a list (`len` of a nil Go map is 0, lookups miss). -/
def dirtyList {K V : Type} (m : MapSt K V) : List (K × Nat) := m.dirty.getD []

/-- `entry.load`. -/
def entryLoad {V : Type} (heap : List (Nat × EntrySt V)) (eid : Nat) : Option V :=
  match lookupA heap eid with
  | some (EntrySt.valid v) => some v
  | _ => none

/-- `entry.delete`: swap a valid pointer to nil and return the value;
a nil or expunged entry is left alone. -/
def entryDelete {V : Type} (heap : List (Nat × EntrySt V)) (eid : Nat) :
    List (Nat × EntrySt V) × Option V :=
  match lookupA heap eid with
  | some (EntrySt.valid v) => (setA heap eid (EntrySt.nilE), some v)
  | _ => (heap, none)

/-- `Map.missLocked`: count the miss and promote the dirty map wholesale
to be the new snapshot once `misses` reaches its size
(`if m.misses < len(m.dirty) { return }`). -/
def missLocked {K V : Type} (m : MapSt K V) : MapSt K V :=
  let mi := m.misses + 1
  if mi < (dirtyList m).length then { m with misses := mi }
  else { m with readm := dirtyList m, amended := false, dirty := none, misses := 0 }

/-- `Map.Load`: consult the snapshot; on a miss with `amended` set, take
the lock, re-check the snapshot, fall back to the dirty map and record
a miss via `missLocked`; finally `e.load()` on the entry found. -/
def mapLoad {K V : Type} [DecidableEq K] (m : MapSt K V) (k : K) :
    MapSt K V × Option V :=
  match lookupA m.readm k with
  | some eid => (m, entryLoad m.heap eid)
  | none =>
    if m.amended then
      match lookupA m.readm k with
      | some eid => (m, entryLoad m.heap eid)
      | none =>
        if m.amended then
          match lookupA (dirtyList m) k with
          | some eid =>
            let m1 := missLocked m
            (m1, entryLoad m1.heap eid)
          | none => (missLocked m, none)
        else (m, none)
    else (m, none)

/-- `Map.LoadAndDelete`: like the `Load` slow path but the key is also
removed from the dirty map before `missLocked`, and the entry found (in
the snapshot or the dirty map) is deleted via `entry.delete`. -/
def mapLoadAndDelete {K V : Type} [DecidableEq K] (m : MapSt K V) (k : K) :
    MapSt K V × Option V :=
  match lookupA m.readm k with
  | some eid =>
    let r := entryDelete m.heap eid
    ({ m with heap := r.1 }, r.2)
  | none =>
    if m.amended then
      match lookupA m.readm k with
      | some eid =>
        let r := entryDelete m.heap eid
        ({ m with heap := r.1 }, r.2)
      | none =>
        if m.amended then
          let eo := lookupA (dirtyList m) k
          let m1 := missLocked { m with dirty := m.dirty.map fun d => eraseA d k }
          match eo with
          | some eid =>
            let r := entryDelete m1.heap eid
            ({ m1 with heap := r.1 }, r.2)
          | none => (m1, none)
        else (m, none)
    else (m, none)

/-- `Map.Delete(key)`: the source is literally `m.LoadAndDelete(key)`
with both results discarded. -/
def mapDelete {K V : Type} [DecidableEq K] (m : MapSt K V) (k : K) : MapSt K V :=
  (mapLoadAndDelete m k).1

/-- A concrete map state: empty snapshot marked amended, one dirty key
`5 ↦` entry `0` holding `42`, no recorded miss yet. -/
def mapCex : MapSt Nat Nat :=
  { heap := [(0, EntrySt.valid 42)], readm := [], amended := true,
    dirty := some [(5, 0)], misses := 0 }

/-! ### Pool (src/src/sync/pool.go)

A pool is an array of per-shard slots (`local`), each holding one
private slot and a double-ended shared chain (head at the front of the
list: the owner pushes/pops the head, thieves pop the tail), plus the
victim generation of the previous GC cycle and the optional factory
`New` (modelled by the value it would construct).  The calling shard id
`pid` is the value `pin()` returns; `Get`/`Put` called with
`pid < len(local)` stay on the pinned fast path (`pinSlow`, which
(re)allocates the shard array, is outside the claims). -/

/-- One per-shard slot (`poolLocalInternal`). -/
structure PoolLocal (α : Type) where
  /-- `private`: only used by the owning shard. -/
  priv : Option α
  /-- `shared`: head at the front; the owner works the head, others
  steal from the tail. -/
  shared : List α
  deriving DecidableEq, Repr

/-- The state of a `Pool`. -/
structure PoolState (α : Type) where
  /-- `local`: the current generation, indexed by shard id. -/
  locals : List (PoolLocal α)
  /-- `victim`: the previous generation. -/
  victims : List (PoolLocal α)
  /-- `New`: the value the factory would construct, if supplied. -/
  newF : Option α
  deriving DecidableEq, Repr

def emptyLocal {α : Type} : PoolLocal α := ⟨none, []⟩

/-- `poolChain.popHead`. -/
def popHead {α : Type} : List α → Option α × List α
  | [] => (none, [])
  | x :: xs => (some x, xs)

/-- `poolChain.popTail`: remove the last element, if any. -/
def popTail {α : Type} (l : List α) : Option α × List α :=
  (l.getLast?, l.dropLast)

/-- `Pool.Put(x)`: a nil `x` returns immediately; otherwise store into
the empty private slot, else push onto the shared chain head. -/
def poolPut {α : Type} (p : PoolState α) (pid : Nat) (x : Option α) : PoolState α :=
  match x with
  | none => p
  | some v =>
    let l := p.locals.getD pid emptyLocal
    match l.priv with
    | none => { p with locals := p.locals.set pid { l with priv := some v } }
    | some _ => { p with locals := p.locals.set pid { l with shared := v :: l.shared } }

/-- The steal loop of `getSlow`: `popTail` each shard of `ls` in the
index order given, stopping at the first object found. -/
def stealLoop {α : Type} (ls : List (PoolLocal α)) :
    List Nat → Option α × List (PoolLocal α)
  | [] => (none, ls)
  | i :: rest =>
    let l := ls.getD i emptyLocal
    match popTail l.shared with
    | (some x, sh) => (some x, ls.set i { l with shared := sh })
    | (none, _) => stealLoop ls rest

/-- `Pool.getSlow`: steal from the other shards' chain tails in the
order `(pid+i+1) % size`, then try the victim generation — its own
private slot, then the victim chains' tails in the order
`(pid+i) % size` — and mark the victim generation empty
(`victimSize = 0`) when even that fails. -/
def getSlow {α : Type} (p : PoolState α) (pid : Nat) : Option α × PoolState α :=
  let n := p.locals.length
  match stealLoop p.locals ((List.range n).map fun i => (pid + i + 1) % n) with
  | (some v, ls) => (some v, { p with locals := ls })
  | (none, _) =>
    let m := p.victims.length
    if pid < m then
      let lv := p.victims.getD pid emptyLocal
      match lv.priv with
      | some v => (some v, { p with victims := p.victims.set pid { lv with priv := none } })
      | none =>
        match stealLoop p.victims ((List.range m).map fun i => (pid + i) % m) with
        | (some v, vs) => (some v, { p with victims := vs })
        | (none, _) => (none, { p with victims := [] })
    else (none, p)

/-- `Pool.Get`: take the private slot (always clearing it), else pop the
own shared chain head, else `getSlow`, and only when all of that found
nothing construct a fresh object with `New` when one was supplied. -/
def poolGet {α : Type} (p : PoolState α) (pid : Nat) : Option α × PoolState α :=
  let l := p.locals.getD pid emptyLocal
  match l.priv with
  | some v => (some v, { p with locals := p.locals.set pid { l with priv := none } })
  | none =>
    match popHead l.shared with
    | (some v, sh) =>
      (some v, { p with locals := p.locals.set pid { l with priv := none, shared := sh } })
    | (none, _) =>
      let p0 := { p with locals := p.locals.set pid { l with priv := none } }
      match getSlow p0 pid with
      | (some v, p1) => (some v, p1)
      | (none, p1) =>
        match p1.newF with
        | some v => (some v, p1)
        | none => (none, p1)

/-- The candidates of the primary search order, peeked without removal:
own private slot, own chain head, then chain tails in the steal order
`(pid+i+1) % size` (the final index revisits the own chain, whose tail
is necessarily empty whenever the steal loop runs). -/
def genOrderPeeks {α : Type} (ls : List (PoolLocal α)) (pid : Nat) : List (Option α) :=
  (ls.getD pid emptyLocal).priv :: (ls.getD pid emptyLocal).shared.head? ::
    (List.range ls.length).map fun i =>
      (ls.getD ((pid + i + 1) % ls.length) emptyLocal).shared.getLast?

/-- The candidates of the victim search order the code uses: the own
private slot of the victim array, then the victim chains' tails in the
order `(pid+i) % size`, starting with the calling shard's own chain. -/
def victimOrderPeeks {α : Type} (p : PoolState α) (pid : Nat) : List (Option α) :=
  if pid < p.victims.length then
    (p.victims.getD pid emptyLocal).priv ::
      (List.range p.victims.length).map fun i =>
        (p.victims.getD ((pid + i) % p.victims.length) emptyLocal).shared.getLast?
  else []

/-- The full search order of `Pool.Get` as the code performs it. -/
def getOrderPeeks {α : Type} (p : PoolState α) (pid : Nat) : List (Option α) :=
  genOrderPeeks p.locals pid ++ victimOrderPeeks p pid

/-- Modelled from the claim's words, for comparison only: the value
`Get` would return if the victim generation were searched in the
identical order as the primary generation (private slot, then own chain
head, then the other chains' tails from `pid+1`). -/
def getClaimOrderValue {α : Type} (p : PoolState α) (pid : Nat) : Option α :=
  match (genOrderPeeks p.locals pid ++ genOrderPeeks p.victims pid).findSome? id with
  | some v => some v
  | none => p.newF

/-- A pool whose current generation is empty and whose victim
generation holds the chain `[10, 20]` (10 at the head, 20 at the tail)
on the calling shard. -/
def poolCex : PoolState Nat :=
  { locals := [⟨none, []⟩, ⟨none, []⟩],
    victims := [⟨none, [10, 20]⟩, ⟨none, []⟩],
    newF := none }

/-! ### Theorems -/

/-! ### Generic helper lemmas about single-bit masks -/

/-- Reading a single bit as a division/modulus expression. -/
theorem land_two_pow_eq (x i : Nat) : x &&& 2 ^ i = x / 2 ^ i % 2 * 2 ^ i := by
  rw [Nat.and_two_pow]
  rcases Nat.mod_two_eq_zero_or_one (x / 2 ^ i) with h | h <;>
    simp [Nat.testBit_to_div_mod, h]

theorem land_four_eq (x : Nat) : x &&& 4 = x / 4 % 2 * 4 := by
  have h := land_two_pow_eq x 2
  norm_num at h
  exact h

theorem land_two_eq (x : Nat) : x &&& 2 = x / 2 % 2 * 2 := by
  have h := land_two_pow_eq x 1
  norm_num at h
  exact h

theorem land_three_eq (x : Nat) : x &&& 3 = x % 4 := by
  have h := Nat.and_pow_two_sub_one_eq_mod x 2
  norm_num at h
  exact h

theorem land_seven_eq (x : Nat) : x &&& 7 = x % 8 := by
  have h := Nat.and_pow_two_sub_one_eq_mod x 3
  norm_num at h
  exact h

/-- Bit 2 of a disjunction with constant 4 is always set. -/
theorem lor_four_land_four (x : Nat) : (x ||| 4) &&& 4 = 4 := by
  have h4 : (4 : Nat) = 2 ^ 2 := by norm_num
  rw [h4, Nat.and_two_pow, Nat.testBit_or]
  have h : Nat.testBit (2 ^ 2) 2 = true := Nat.testBit_two_pow_self
  rw [h, Bool.or_true]
  norm_num

/-! ### Further single-bit helpers used for the Mutex proofs -/

theorem land_four_ne_zero_iff (x : Nat) : x &&& 4 ≠ 0 ↔ x / 4 % 2 = 1 := by
  rw [land_four_eq]
  omega

theorem land_two_ne_zero_iff (x : Nat) : x &&& 2 ≠ 0 ↔ x / 2 % 2 = 1 := by
  rw [land_two_eq]
  omega

theorem land_five_ne_zero_of_bit2 (x : Nat) (h : x / 4 % 2 = 1) : x &&& 5 ≠ 0 := by
  intro h0
  have hb : (x &&& 5).testBit 2 = false := by
    rw [h0]
    exact Nat.zero_testBit 2
  rw [Nat.testBit_and] at hb
  have h2 : x.testBit 2 = true := by
    rw [Nat.testBit_to_div_mod]
    norm_num [h]
  have h5 : Nat.testBit 5 2 = true := by decide
  rw [h2, h5] at hb
  simp at hb

theorem land_five_ne_zero_of_bit0 (x : Nat) (h : x % 2 = 1) : x &&& 5 ≠ 0 := by
  intro h0
  have hb : (x &&& 5).testBit 0 = false := by
    rw [h0]
    exact Nat.zero_testBit 0
  rw [Nat.testBit_and] at hb
  have h2 : x.testBit 0 = true := by
    rw [Nat.testBit_to_div_mod]
    norm_num [h]
  have h5 : Nat.testBit 5 0 = true := by decide
  rw [h2, h5] at hb
  simp at hb

/-- Subtracting a set woken bit (bit 1) leaves bit 2 unchanged. -/
theorem sub_two_div_four (x : Nat) (h : x / 2 % 2 = 1) : (x - 2) / 4 % 2 = x / 4 % 2 := by
  omega

/-- Adding one waiter (`+ 8`) leaves bit 2 unchanged. -/
theorem add_eight_div_four (x : Nat) : (x + 8) / 4 % 2 = x / 4 % 2 := by
  omega

theorem unlockSlowM_fatal_iff (n : Nat) :
    unlockSlowM n = UnlockOutcome.fatal ↔ (n + 1) % 2 = 0 := by
  simp only [unlockSlowM, mutexLocked, Nat.and_one_is_mod]
  split
  next h =>
    simp only [beq_iff_eq] at h
    simp [h]
  next h =>
    simp only [beq_iff_eq] at h
    split
    · split <;> simp [h]
    · simp [h]

/-- Claim C8: calling `Mutex.Unlock` on a state whose locked bit is not
set reaches `throw("sync: unlock of unlocked mutex")`, a fatal error
rather than a recoverable return; `Unlock` on a locked state never takes
that fatal path. -/
theorem mutexUnlock_spec (state : Nat) :
    (state &&& mutexLocked = 0 → mutexUnlock state = UnlockOutcome.fatal) ∧
    (state &&& mutexLocked = mutexLocked → mutexUnlock state ≠ UnlockOutcome.fatal) := by
  have hm : state &&& mutexLocked = state % 2 := by
    rw [mutexLocked, Nat.and_one_is_mod]
  rw [hm, mutexLocked]
  simp only [mutexUnlock]
  constructor
  · intro h0
    split
    next hne =>
      rw [unlockSlowM_fatal_iff, two32, mutexLocked]
      omega
    next hne =>
      exfalso
      simp only [bne_iff_ne, ne_eq, not_not, two32, mutexLocked] at hne
      omega
  · intro h1 hfatal
    split at hfatal
    next hne =>
      rw [unlockSlowM_fatal_iff, two32, mutexLocked] at hfatal
      omega
    next hne =>
      simp at hfatal

/-- Witness for C8: `Unlock` of the unlocked state 0 is fatal, and
`Unlock` of the locked state with one waiter (9) is not. -/
theorem mutexUnlock_spec_witness :
    mutexUnlock 0 = UnlockOutcome.fatal ∧ mutexUnlock 9 ≠ UnlockOutcome.fatal :=
  ⟨(mutexUnlock_spec 0).1 (by decide), (mutexUnlock_spec 9).2 (by decide)⟩

theorem land4_ne_zero_iff_testBit (x : Nat) : x &&& 4 ≠ 0 ↔ x.testBit 2 = true := by
  rw [land_four_ne_zero_iff, Nat.testBit_to_div_mod]
  simp

theorem land4_beq (x : Nat) : (x &&& 4 == 0) = !x.testBit 2 := by
  have h : x &&& 2 ^ 2 = (x.testBit 2).toNat * 2 ^ 2 := Nat.and_two_pow x 2
  norm_num at h
  rw [h]
  cases hb : x.testBit 2 <;> simp

theorem land2_beq (x : Nat) : (x &&& 2 == 0) = !x.testBit 1 := by
  have h : x &&& 2 ^ 1 = (x.testBit 1).toNat * 2 ^ 1 := Nat.and_two_pow x 1
  norm_num at h
  rw [h]
  cases hb : x.testBit 1 <;> simp

theorem land1_bne (x : Nat) : (x &&& 1 != 0) = x.testBit 0 := by
  rcases Nat.mod_two_eq_zero_or_one x with h | h <;>
    simp [Nat.and_one_is_mod, Nat.testBit_to_div_mod, h]

theorem land5_eq_zero_iff (x : Nat) :
    x &&& 5 = 0 ↔ (x.testBit 0 = false ∧ x.testBit 2 = false) := by
  constructor
  · intro h
    have hb0 : (x &&& 5).testBit 0 = false := by
      rw [h]
      exact Nat.zero_testBit 0
    have hb2 : (x &&& 5).testBit 2 = false := by
      rw [h]
      exact Nat.zero_testBit 2
    rw [Nat.testBit_and] at hb0 hb2
    have e0 : Nat.testBit 5 0 = true := by decide
    have e2 : Nat.testBit 5 2 = true := by decide
    rw [e0, Bool.and_true] at hb0
    rw [e2, Bool.and_true] at hb2
    exact ⟨hb0, hb2⟩
  · rintro ⟨h0, h2⟩
    apply Nat.eq_of_testBit_eq
    intro i
    rw [Nat.testBit_and, Nat.zero_testBit]
    match i with
    | 0 => simp [h0]
    | 1 =>
      have e1 : Nat.testBit 5 1 = false := by decide
      simp [e1]
    | 2 => simp [h2]
    | (j + 3) =>
      have h5 : Nat.testBit 5 (j + 3) = false :=
        Nat.testBit_lt_two_pow (by
          calc (5 : Nat) < 2 ^ 3 := by norm_num
          _ ≤ 2 ^ (j + 3) := Nat.pow_le_pow_right (by norm_num) (by omega))
      simp [h5]

theorem land5_bne (x : Nat) : (x &&& 5 != 0) = (x.testBit 0 || x.testBit 2) := by
  by_cases h : x &&& 5 = 0
  · have h' := (land5_eq_zero_iff x).mp h
    rw [h, h'.1, h'.2]
    decide
  · have hne : (x &&& 5 != 0) = true := by
      simp [bne_iff_ne, h]
    rw [hne]
    have h' : ¬(x.testBit 0 = false ∧ x.testBit 2 = false) := fun hc =>
      h ((land5_eq_zero_iff x).mpr hc)
    cases h0 : x.testBit 0 <;> cases h2 : x.testBit 2 <;> simp_all

/-- Bit 2 is unchanged by adding a waiter (`+ 8`). -/
theorem testBit2_add_eight (x : Nat) : (x + 8).testBit 2 = x.testBit 2 := by
  rw [Nat.testBit_to_div_mod, Nat.testBit_to_div_mod]
  norm_num
  omega

/-- Bit 2 is unchanged by clearing a set woken bit (`- 2`). -/
theorem testBit2_sub_two (x : Nat) (h : x.testBit 1 = true) :
    (x - 2).testBit 2 = x.testBit 2 := by
  rw [Nat.testBit_to_div_mod] at h
  rw [Nat.testBit_to_div_mod, Nat.testBit_to_div_mod]
  norm_num at h ⊢
  omega

/-- Bit 2 of `x ||| 4` is set. -/
theorem testBit2_lor_four (x : Nat) : (x ||| 4).testBit 2 = true := by
  rw [Nat.testBit_or]
  have h4 : Nat.testBit 4 2 = true := by decide
  simp [h4]

/-- Bit 2 is unchanged by setting the locked bit (`||| 1`). -/
theorem testBit2_lor_one (x : Nat) : (x ||| 1).testBit 2 = x.testBit 2 := by
  rw [Nat.testBit_or]
  have h1 : Nat.testBit 1 2 = false := by decide
  simp [h1]

/-- The state a starving waiter CASes in before re-parking keeps the
starving bit whenever the observed state was locked or starving. -/
theorem lockSlowNewState_keeps_starving (old : Nat) (awoke : Bool) (n : Nat)
    (hp : old.testBit 0 = true ∨ old.testBit 2 = true)
    (hn : lockSlowNewState old true awoke = some n) : n.testBit 2 = true := by
  simp only [lockSlowNewState, mutexStarving, mutexLocked, mutexWoken, mutexWaiterShift,
    show (1 ||| 4 : Nat) = 5 from by decide, show (1 <<< 3 : Nat) = 8 from by decide,
    land4_beq, land1_bne, land5_bne, land2_beq, Bool.true_and] at hn
  cases h0 : old.testBit 0 <;> cases h2 : old.testBit 2
  · rcases hp with h | h
    · rw [h0] at h
      exact absurd h (by simp)
    · rw [h2] at h
      exact absurd h (by simp)
  · -- not locked, starving bit already set: the new state is old + 8
    simp only [h0, h2, Bool.not_true, Bool.false_eq_true, if_false, Bool.false_or,
      if_true] at hn
    cases awoke with
    | false =>
      simp only [Bool.false_eq_true, if_false, Option.some.injEq] at hn
      rw [← hn, testBit2_add_eight]
      exact h2
    | true =>
      simp only [if_true] at hn
      split at hn
      · exact absurd hn (by simp)
      next hw =>
        simp only [Bool.not_eq_true', Bool.not_eq_false] at hw
        simp only [Option.some.injEq] at hn
        rw [← hn, testBit2_sub_two _ hw, testBit2_add_eight]
        exact h2
  · -- locked, not starving: the new state is ((old ||| 1) + 8) ||| 4
    simp only [h0, h2, Bool.not_false, if_true, Bool.true_or] at hn
    cases awoke with
    | false =>
      simp only [Bool.false_eq_true, if_false, Option.some.injEq] at hn
      rw [← hn, testBit2_lor_four]
    | true =>
      simp only [if_true] at hn
      split at hn
      · exact absurd hn (by simp)
      next hw =>
        simp only [Bool.not_eq_true', Bool.not_eq_false] at hw
        simp only [Option.some.injEq] at hn
        rw [← hn, testBit2_sub_two _ hw, testBit2_lor_four]
  · -- locked and starving: the new state is (old + 8) ||| 4
    simp only [h0, h2, Bool.not_true, Bool.false_eq_true, if_false, Bool.true_or,
      if_true] at hn
    cases awoke with
    | false =>
      simp only [Bool.false_eq_true, if_false, Option.some.injEq] at hn
      rw [← hn, testBit2_lor_four]
    | true =>
      simp only [if_true] at hn
      split at hn
      · exact absurd hn (by simp)
      next hw =>
        simp only [Bool.not_eq_true', Bool.not_eq_false] at hw
        simp only [Option.some.injEq] at hn
        rw [← hn, testBit2_sub_two _ hw, testBit2_lor_four]

/-- Claim C1: on the contended path of `Mutex.lock`, (i) the waiter's
local `starving` flag becomes set exactly when its wait exceeded the
1 ms `starvationThresholdNs`, (ii) a waiter whose `starving` flag is set
and that is about to re-park (the observed state is locked or starving)
writes a state carrying the `mutexStarving` bit, and (iii) a waiter
woken by a starvation handoff (state with the starving bit set,
locked/woken bits clear, `w ≥ 1` waiters) acquires the mutex, and the
written state clears the starving bit exactly when the waiter was the
last one remaining (`w = 1`) or its own total wait time was within the
threshold. -/
theorem lockSlow_starvation_spec (old w : Nat) (now waitStartTime : Int) (stv : Bool) :
    (starvingAfterWake false now waitStartTime = true ↔
      now - waitStartTime > starvationThresholdNs) ∧
    ((old &&& mutexLocked ≠ 0 ∨ old &&& mutexStarving ≠ 0) →
      ∀ awoke n, lockSlowNewState old true awoke = some n → n &&& mutexStarving ≠ 0) ∧
    (old = mutexStarving + (w <<< mutexWaiterShift) → 1 ≤ w →
      stv = decide (now - waitStartTime > starvationThresholdNs) →
      ∃ ns, lockSlowAfterWake old stv = WakeStep.acquired ns ∧
        (ns &&& mutexStarving = 0 ↔
          (w = 1 ∨ now - waitStartTime ≤ starvationThresholdNs))) := by
  refine ⟨?_, ?_, ?_⟩
  · simp [starvingAfterWake]
  · intro hre awoke n hn
    rw [mutexStarving, land4_ne_zero_iff_testBit]
    have hre' : old.testBit 0 = true ∨ old.testBit 2 = true := by
      rcases hre with h | h
      · left
        rw [← land1_bne]
        rw [mutexLocked, Nat.and_one_is_mod] at h
        simp only [bne_iff_ne, ne_eq, Nat.and_one_is_mod]
        omega
      · right
        rw [mutexStarving, land4_ne_zero_iff_testBit] at h
        exact h
    exact lockSlowNewState_keeps_starving old awoke n hre' hn
  · intro ho hw hstv
    have ho' : old = 4 + 8 * w := by
      rw [ho, mutexStarving, mutexWaiterShift, Nat.shiftLeft_eq]
      ring
    have hc1 : (old &&& mutexStarving != 0) = true := by
      simp only [mutexStarving, bne_iff_ne, ne_eq, land_four_eq, ho']
      omega
    have hc2 : ((old &&& (mutexLocked ||| mutexWoken) != 0) ||
        (old >>> mutexWaiterShift == 0)) = false := by
      have e3 : (mutexLocked ||| mutexWoken : Nat) = 3 := by decide
      rw [Bool.or_eq_false_iff]
      constructor
      · simp only [e3, land_three_eq, bne_eq_false_iff_eq, ho']
        omega
      · simp only [mutexWaiterShift, Nat.shiftRight_eq_div_pow, beq_eq_false_iff_ne,
          ne_eq, ho']
        omega
    have hsr : old >>> mutexWaiterShift = w := by
      simp only [mutexWaiterShift, Nat.shiftRight_eq_div_pow, ho']
      omega
    rw [lockSlowAfterWake, hc1, if_pos rfl, hc2]
    simp only [Bool.false_eq_true, if_false]
    refine ⟨_, rfl, ?_⟩
    rw [hsr, mutexStarving, mutexLocked, mutexWaiterShift, land_four_eq, ho']
    by_cases hd : now - waitStartTime ≤ starvationThresholdNs
    · have hdec : decide (now - waitStartTime > starvationThresholdNs) = false := by
        simp [hd]
      rw [hstv, hdec]
      simp only [Bool.not_false, Bool.true_or, if_true]
      constructor
      · intro _
        right
        exact hd
      · intro _
        have h8 : (1 <<< 3 : Nat) = 8 := by decide
        rw [h8]
        omega
    · have hdec : decide (now - waitStartTime > starvationThresholdNs) = true := by
        simp
        omega
      rw [hstv, hdec]
      simp only [Bool.not_true, Bool.false_or]
      have h8 : (1 <<< 3 : Nat) = 8 := by decide
      rw [h8]
      by_cases hw1 : w = 1
      · have hbeq : (w == 1) = true := by
          simp [hw1]
        rw [hbeq]
        simp only [if_true]
        constructor
        · intro _
          exact Or.inl hw1
        · intro _
          subst hw1
          norm_num
      · have hbeq : (w == 1) = false := by
          simp [hw1]
        rw [hbeq]
        simp only [Bool.false_eq_true, if_false]
        constructor
        · intro hcon
          exfalso
          omega
        · intro hcon
          rcases hcon with h | h
          · exact absurd h hw1
          · exact absurd h hd

/-- Witness for C1: a handoff to a waiter among `w = 2` waiters that
waited 2000001 ns keeps the starvation bit. -/
theorem lockSlow_starvation_spec_witness :
    ∃ ns, lockSlowAfterWake 20 true = WakeStep.acquired ns ∧
      (ns &&& mutexStarving = 0 ↔
        (2 = 1 ∨ (2000001 : Int) - 0 ≤ starvationThresholdNs)) :=
  (lockSlow_starvation_spec 20 2 2000001 0 true).2.2 (by decide) (by decide) (by decide)

theorem rwReleaseLoop_eq_replicate (n : Nat) :
    rwReleaseLoop n = List.replicate n RWEv.releaseReaderSem := by
  induction n with
  | zero => rfl
  | succ k ih => simp [rwReleaseLoop, ih, List.replicate_succ]

/-- Claim C6: for a writer-held state (`readerCount < 0`),
`RWMutex.Unlock` adds `rwmutexMaxReaders` back to `readerCount`, then
releases the reader semaphore exactly once per reader that queued while
the writer was waiting (the value of `readerCount` after the addition),
and only after all of those releases unlocks the embedded writer
mutex. -/
theorem rwUnlock_spec (readerCount : Int) (h : readerCount < 0) :
    rwUnlock readerCount =
      (readerCount + rwmutexMaxReaders,
        List.replicate (readerCount + rwmutexMaxReaders).toNat RWEv.releaseReaderSem ++
          [RWEv.unlockWriterMutex]) := by
  rw [rwUnlock]
  have hlt : ¬(readerCount + rwmutexMaxReaders >= rwmutexMaxReaders) := by
    omega
  rw [if_neg hlt, rwReleaseLoop_eq_replicate]

/-- Witness for C6: a writer unlock with two queued readers releases the
reader semaphore twice and then the writer mutex. -/
theorem rwUnlock_spec_witness :
    rwUnlock (2 - rwmutexMaxReaders) =
      (2, [RWEv.releaseReaderSem, RWEv.releaseReaderSem, RWEv.unlockWriterMutex]) := by
  have h := rwUnlock_spec (2 - rwmutexMaxReaders) (by norm_num [rwmutexMaxReaders])
  simpa using h

/-- Claim C7: `RUnlock` decrements `readerCount`; when the decremented
value is negative (a writer is pending) and the instance was genuinely
read-locked, `readerWait` is decremented and the writer semaphore is
released exactly once, exactly when this caller was the last
outstanding reader the writer was waiting for (`readerWait` reaches 0
after this reader's decrement). -/
theorem rUnlock_spec (readerCount readerWait : Int) (hneg : readerCount - 1 < 0)
    (h0 : readerCount ≠ 0) (hmax : readerCount ≠ -rwmutexMaxReaders) :
    rUnlock readerCount readerWait =
      (readerCount - 1, readerWait - 1,
        if readerWait = 1 then [RUEv.releaseWriterSem] else []) := by
  rw [rUnlock]
  rw [if_pos hneg]
  have hth : ¬(readerCount - 1 + 1 = 0 ∨ readerCount - 1 + 1 = -rwmutexMaxReaders) := by
    omega
  rw [if_neg hth]
  by_cases hw : readerWait = 1
  · rw [if_pos (by omega), if_pos hw]
  · rw [if_neg (by omega), if_neg hw]

/-- Witness for C7: the last reader a writer was waiting on (out of a
single outstanding reader) releases the writer semaphore once. -/
theorem rUnlock_spec_witness :
    rUnlock (5 - rwmutexMaxReaders) 1 =
      (4 - rwmutexMaxReaders, 0, [RUEv.releaseWriterSem]) := by
  have h := rUnlock_spec (5 - rwmutexMaxReaders) 1 (by norm_num [rwmutexMaxReaders])
    (by norm_num [rwmutexMaxReaders]) (by norm_num [rwmutexMaxReaders])
  simpa using h

theorem wgRelLoop_eq_replicate (n : Nat) : wgRelLoop n = List.replicate n () := by
  induction n with
  | zero => rfl
  | succ k ih => simp [wgRelLoop, ih, List.replicate_succ]

/-- Counterexample to C2 as stated: on the packed state 1 (counter 0,
one waiter) `Add(1)` produces the resulting counter 1 (nonzero), yet it
does not return without releasing anyone: it panics with the
Add-called-concurrently-with-Wait misuse error. -/
theorem wgAdd_claim_counterexample :
    wgAdd 1 1 = WGAddResult.panicConcurrent ∧
      wgCounter (wgNewState 1 1) = 1 ∧ wgWaiters (wgNewState 1 1) = 1 := by
  refine ⟨?_, by decide, by decide⟩
  decide

/-- Claim C2 (amended): `WaitGroup.Add(delta)` panics when the resulting
packed counter `v` is negative; it also panics (misuse: Add called
concurrently with Wait) when the waiter count `w` is nonzero, `delta`
is positive and `v` equals `int32(delta)`; otherwise, if `v` is nonzero
or `w` is zero it returns leaving the state unchanged and releasing no
one; and if `v = 0` with `w > 0` it resets the packed state to 0 and
releases the semaphore exactly `w` times. -/
theorem wgAdd_spec (state : Nat) (delta : Int) :
    (wgCounter (wgNewState state delta) < 0 →
      wgAdd state delta = WGAddResult.panicNegative) ∧
    (0 ≤ wgCounter (wgNewState state delta) →
      wgWaiters (wgNewState state delta) ≠ 0 → 0 < delta →
      wgCounter (wgNewState state delta) = toInt32 delta →
      wgAdd state delta = WGAddResult.panicConcurrent) ∧
    (0 ≤ wgCounter (wgNewState state delta) →
      ¬(wgWaiters (wgNewState state delta) ≠ 0 ∧ 0 < delta ∧
          wgCounter (wgNewState state delta) = toInt32 delta) →
      (0 < wgCounter (wgNewState state delta) ∨ wgWaiters (wgNewState state delta) = 0) →
      wgAdd state delta = WGAddResult.ok (wgNewState state delta) []) ∧
    (wgCounter (wgNewState state delta) = 0 →
      wgWaiters (wgNewState state delta) ≠ 0 →
      ¬(0 < delta ∧ toInt32 delta = 0) →
      wgAdd state delta =
        WGAddResult.ok 0 (List.replicate (wgWaiters (wgNewState state delta)) ())) := by
  refine ⟨?_, ?_, ?_, ?_⟩
  · intro hv
    rw [wgAdd, if_pos hv]
  · intro hv hw hd he
    rw [wgAdd, if_neg (by omega), if_pos ⟨hw, hd, he⟩]
  · intro hv hnc hret
    rw [wgAdd, if_neg (by omega), if_neg hnc, if_pos hret]
  · intro hv hw hnc
    have hnc' : ¬(wgWaiters (wgNewState state delta) ≠ 0 ∧ 0 < delta ∧
        wgCounter (wgNewState state delta) = toInt32 delta) := by
      rintro ⟨_, hd, he⟩
      exact hnc ⟨hd, by rw [← he, hv]⟩
    rw [wgAdd, if_neg (by omega), if_neg hnc', if_neg (by
      rintro (h | h)
      · omega
      · exact hw h), wgRelLoop_eq_replicate]

/-- Witness for C2: `Add(-1)` on a state with counter 1 and two waiters
resets the state to 0 and releases the semaphore exactly twice. -/
theorem wgAdd_spec_witness :
    wgAdd 4294967298 (-1) = WGAddResult.ok 0 (List.replicate 2 ()) := by
  have h := (wgAdd_spec 4294967298 (-1)).2.2.2 (by decide) (by decide) (by decide)
  have hw : wgWaiters (wgNewState 4294967298 (-1)) = 2 := by decide
  rw [hw] at h
  exact h

theorem onceRunFrom_done (fs : List (Nat × Bool)) : onceRunFrom true fs = (true, []) := by
  induction fs with
  | nil => rfl
  | cons f rest ih => simp [onceRunFrom, onceDo, ih]

/-- Claim C3: over every sequence of `Do` calls on one `Once` value
starting from the zero value, only the first call invokes its argument
`f` — the whole trace is `f` starting, `f` finishing (normally or by
panic), and only then the `done` store — every later call returns
without invoking its argument, and in total at most one invocation ever
happens. -/
theorem onceDo_spec (f : Nat × Bool) (rest : List (Nat × Bool)) :
    onceRunFrom false (f :: rest) =
      (true, [OnceEv.invokeStart f.1, OnceEv.invokeEnd f.1 f.2, OnceEv.storeDone]) ∧
    (∀ fs : List (Nat × Bool), invokeCount (onceRunFrom false fs).2 ≤ 1) := by
  constructor
  · simp [onceRunFrom, onceDo, onceRunFrom_done]
  · intro fs
    cases fs with
    | nil => decide
    | cons g rest' =>
      simp [onceRunFrom, onceDo, onceRunFrom_done, invokeCount]

/-- Claim C9: `Map.Delete` is exactly `Map.LoadAndDelete` with the
returned value and flag discarded — the same resulting state, hence the
same read snapshot, dirty map, miss counter and entry heap. -/
theorem mapDelete_eq_loadAndDelete {K V : Type} [DecidableEq K]
    (m : MapSt K V) (k : K) :
    mapDelete m k = (mapLoadAndDelete m k).1 ∧
    (mapDelete m k).readm = (mapLoadAndDelete m k).1.readm ∧
    (mapDelete m k).amended = (mapLoadAndDelete m k).1.amended ∧
    (mapDelete m k).dirty = (mapLoadAndDelete m k).1.dirty ∧
    (mapDelete m k).misses = (mapLoadAndDelete m k).1.misses ∧
    (mapDelete m k).heap = (mapLoadAndDelete m k).1.heap :=
  ⟨rfl, rfl, rfl, rfl, rfl, rfl⟩

/-- Counterexample to C4 as stated: after one single miss the recorded
miss count (1) equals, and does not exceed, the dirty size (1), yet
`Load` already promotes: the dirty map becomes the snapshot, the dirty
map is cleared and the miss counter is reset.  Promotion happens at
`misses >= len(dirty)`, not only strictly beyond it. -/
theorem mapLoad_promotion_counterexample :
    mapCex.misses + 1 = (dirtyList mapCex).length ∧
    (mapLoad mapCex 5).1.dirty = none ∧
    (mapLoad mapCex 5).1.misses = 0 ∧
    (mapLoad mapCex 5).1.readm = [(5, 0)] ∧
    (mapLoad mapCex 5).1.amended = false ∧
    (mapLoad mapCex 5).2 = some 42 := by
  refine ⟨by decide, by decide, by decide, by decide, by decide, by decide⟩

/-- Claim C4 (amended): a `Load` (or `LoadAndDelete`) that falls back to
the dirty map passes through `missLocked`, which increments the miss
counter; `missLocked` promotes the dirty map wholesale to be the new
snapshot — discarding the old snapshot, clearing the dirty map and
resetting the miss counter — exactly when the incremented miss count
reaches at least the size of the dirty map (`misses + 1 ≥ len(dirty)`),
and not before. -/
theorem mapMiss_spec {K V : Type} [DecidableEq K] (m : MapSt K V) (k : K) :
    (m.misses + 1 < (dirtyList m).length →
      missLocked m = { m with misses := m.misses + 1 }) ∧
    ((dirtyList m).length ≤ m.misses + 1 →
      missLocked m =
        { m with readm := dirtyList m, amended := false, dirty := none, misses := 0 }) ∧
    (lookupA m.readm k = none → m.amended = true →
      (mapLoad m k).1 = missLocked m) ∧
    (lookupA m.readm k = none → m.amended = true →
      (mapLoadAndDelete m k).1 =
        { missLocked { m with dirty := m.dirty.map fun d => eraseA d k } with
            heap := (mapLoadAndDelete m k).1.heap }) := by
  refine ⟨?_, ?_, ?_, ?_⟩
  · intro h
    rw [missLocked, if_pos h]
  · intro h
    rw [missLocked, if_neg (by omega)]
  · intro hk ha
    simp only [mapLoad, hk, ha, if_true]
    cases hd : lookupA (dirtyList m) k <;> simp
  · intro hk ha
    simp only [mapLoadAndDelete, hk, ha, if_true]
    cases hd : lookupA (dirtyList m) k
    · simp
    · simp only []

/-- Witness for C4: one miss on a dirty map of two keys only counts the
miss (1 < 2), and one miss on the one-key dirty map `mapCex` promotes. -/
theorem mapMiss_spec_witness :
    missLocked { mapCex with dirty := some [(5, 0), (6, 1)] } =
      { mapCex with dirty := some [(5, 0), (6, 1)], misses := 1 } ∧
    (mapLoad mapCex 5).1 = missLocked mapCex := by
  constructor
  · exact (mapMiss_spec { mapCex with dirty := some [(5, 0), (6, 1)] } 5).1 (by decide)
  · exact (mapMiss_spec mapCex 5).2.2.1 (by decide) (by decide)

/-- Claim C10: `Pool.Put` with a nil value is a no-op: the private
slots, the shared chains, the victim generation and the factory are all
left unchanged, and nothing is stored. -/
theorem poolPut_nil {α : Type} (p : PoolState α) (pid : Nat) :
    poolPut p pid none = p ∧
    (poolPut p pid none).locals = p.locals ∧
    (poolPut p pid none).victims = p.victims ∧
    (poolPut p pid none).newF = p.newF :=
  ⟨rfl, rfl, rfl, rfl⟩

/-- Counterexample to C5 as stated: on `poolCex`, searching the victim
generation in the identical order as the primary generation would
return the own victim chain's head 10, but `Get` pops the own victim
chain's tail and returns 20. -/
theorem poolGet_order_counterexample :
    (poolGet poolCex 0).1 = some 20 ∧
    getClaimOrderValue poolCex 0 = some 10 ∧
    (some 20 : Option Nat) ≠ some 10 :=
  ⟨by decide, by decide, by decide⟩

theorem stealLoop_fst {α : Type} (ls : List (PoolLocal α)) (order : List Nat) :
    (stealLoop ls order).1 =
      order.findSome? fun i => (ls.getD i emptyLocal).shared.getLast? := by
  induction order with
  | nil => rfl
  | cons i rest ih =>
    have hstep : stealLoop ls (i :: rest) =
        match popTail (ls.getD i emptyLocal).shared with
        | (some x, sh) => (some x, ls.set i { ls.getD i emptyLocal with shared := sh })
        | (none, _) => stealLoop ls rest := rfl
    cases h : (ls.getD i emptyLocal).shared.getLast? with
    | none =>
      rw [hstep, popTail, h, List.findSome?_cons_of_isNone _ (by simp only [h]; rfl)]
      exact ih
    | some v =>
      rw [hstep, popTail, h, List.findSome?_cons_of_isSome _ (by simp only [h]; rfl)]
      rw [h]

theorem stealLoop_fst_map {α : Type} (ls : List (PoolLocal α)) (f : Nat → Nat)
    (L : List Nat) :
    (stealLoop ls (L.map f)).1 =
      L.findSome? fun i => (ls.getD (f i) emptyLocal).shared.getLast? := by
  rw [stealLoop_fst, List.findSome?_map]
  rfl

theorem findSome?_id_map {β : Type} (f : Nat → Option β) (L : List Nat) :
    ((L.map f).findSome? id) = L.findSome? f := by
  rw [List.findSome?_map]
  rfl

theorem set_getD_self {β : Type} (ls : List β) (pid : Nat) (d : β)
    (h : pid < ls.length) : ls.set pid (ls.getD pid d) = ls := by
  apply List.ext_getElem?
  intro n
  rw [List.getElem?_set]
  split
  next he =>
    rw [← he, List.getD_eq_getElem?_getD, List.getElem?_eq_getElem h]
    simp
  next => rfl

theorem getSlow_newF {α : Type} (p : PoolState α) (pid : Nat) :
    (getSlow p pid).2.newF = p.newF := by
  rw [getSlow]
  dsimp only
  split
  · rfl
  · split
    · split
      · rfl
      · split <;> rfl
    · rfl

theorem getSlow_fst {α : Type} (p : PoolState α) (pid : Nat) :
    (getSlow p pid).1 =
      (((List.range p.locals.length).map fun i =>
          (p.locals.getD ((pid + i + 1) % p.locals.length) emptyLocal).shared.getLast?) ++
        victimOrderPeeks p pid).findSome? id := by
  rw [List.findSome?_append, findSome?_id_map, getSlow]
  dsimp only
  have hsl := stealLoop_fst_map p.locals (fun i => (pid + i + 1) % p.locals.length)
    (List.range p.locals.length)
  cases hm : stealLoop p.locals
      ((List.range p.locals.length).map fun i => (pid + i + 1) % p.locals.length) with
  | mk x ls =>
    rw [hm] at hsl
    cases x with
    | some v =>
      have hx : (List.range p.locals.length).findSome?
          (fun i => (p.locals.getD ((pid + i + 1) % p.locals.length)
            emptyLocal).shared.getLast?) = some v := by
        rw [← hsl]
      rw [hx]
      rfl
    | none =>
      have hx : (List.range p.locals.length).findSome?
          (fun i => (p.locals.getD ((pid + i + 1) % p.locals.length)
            emptyLocal).shared.getLast?) = none := by
        rw [← hsl]
      rw [hx, Option.none_or, victimOrderPeeks]
      by_cases hv : pid < p.victims.length
      · rw [if_pos hv, if_pos hv]
        cases hpv : (p.victims.getD pid emptyLocal).priv with
        | some v =>
          rw [List.findSome?_cons_of_isSome _ (by rfl)]
          rfl
        | none =>
          rw [List.findSome?_cons_of_isNone _ (by rfl), findSome?_id_map]
          have hsv := stealLoop_fst_map p.victims (fun i => (pid + i) % p.victims.length)
            (List.range p.victims.length)
          cases hm2 : stealLoop p.victims
              ((List.range p.victims.length).map fun i => (pid + i) % p.victims.length) with
          | mk y vs =>
            rw [hm2] at hsv
            cases y with
            | some w => rw [← hsv]
            | none => rw [← hsv]
      · rw [if_neg hv, if_neg hv]
        rfl

/-- Claim C5 (amended): `Pool.Get` returns the first object found in
this order: the calling shard's private slot; the head of the calling
shard's shared chain; the tails of the shards' shared chains in the
steal order starting after the calling shard; then the victim
generation — the calling shard's private victim slot followed by the
victim chains' tails starting from the calling shard's own chain (not
the head-then-steal order of the primary generation) — and only if all
of those are empty the value of the factory `New` when one was
supplied. -/
theorem poolGet_order {α : Type} (p : PoolState α) (pid : Nat)
    (hp : pid < p.locals.length) :
    (poolGet p pid).1 =
      match (getOrderPeeks p pid).findSome? id with
      | some v => some v
      | none => p.newF := by
  rw [poolGet, getOrderPeeks, genOrderPeeks]
  dsimp only
  cases hpriv : (p.locals.getD pid emptyLocal).priv with
  | some v =>
    rw [List.cons_append, List.findSome?_cons_of_isSome _ (by rfl)]
    rfl
  | none =>
    cases hsh : (p.locals.getD pid emptyLocal).shared with
    | cons x xs =>
      rw [List.cons_append, List.findSome?_cons_of_isNone _ (by rfl),
        List.cons_append, List.findSome?_cons_of_isSome _ (by rfl)]
      rfl
    | nil =>
      have helem : p.locals.getD pid emptyLocal = (⟨none, []⟩ : PoolLocal α) := by
        have h1 : (p.locals.getD pid emptyLocal).priv = none := hpriv
        have h2 : (p.locals.getD pid emptyLocal).shared = [] := hsh
        rcases hE : p.locals.getD pid emptyLocal with ⟨pv, sh⟩
        rw [hE] at h1 h2
        simp only at h1 h2
        rw [h1, h2]
      have hset : p.locals.set pid (⟨none, []⟩ : PoolLocal α) = p.locals := by
        have hL := set_getD_self p.locals pid emptyLocal hp
        rw [helem] at hL
        exact hL
      rw [List.cons_append, List.findSome?_cons_of_isNone _ (by rfl),
        List.cons_append, List.findSome?_cons_of_isNone _ (by rfl)]
      rw [hset]
      have hpe : ({ locals := p.locals, victims := p.victims, newF := p.newF } :
          PoolState α) = p := rfl
      rw [hpe]
      have hfst := getSlow_fst p pid
      cases hgs : getSlow p pid with
      | mk x p1 =>
        rw [hgs] at hfst
        have hnf : p1.newF = p.newF := by
          rw [← getSlow_newF p pid, hgs]
        cases x with
        | some v =>
          rw [← hfst]
          rfl
        | none =>
          rw [← hfst]
          cases hnf2 : p1.newF with
          | some w =>
            have hw : p.newF = some w := by rw [← hnf, hnf2]
            rw [hw]
            simp only [hnf2, popHead]
          | none =>
            have hw : p.newF = none := by rw [← hnf, hnf2]
            rw [hw]
            simp only [hnf2, popHead]

/-- Witness for C5: on `poolCex` the first candidate of the code's
search order is the victim tail 20, and `Get` returns it. -/
theorem poolGet_order_witness :
    (poolGet poolCex 0).1 =
      match (getOrderPeeks poolCex 0).findSome? id with
      | some v => some v
      | none => poolCex.newF :=
  poolGet_order poolCex 0 (by decide)
